import Mathlib

/-!
Verification development for the daily-planning bot core
(plan/task store, carry-over resolver, streak and weekly statistics,
notification scheduler).

The definitions below are a shallow embedding of the TypeScript services:
* `src/services/task.service.ts` — task parsing, normalization, append, remove;
* `src/services/daily-plan.service.ts` — plan creation/replacement, carry-over,
  streak over reviewed plans;
* `src/services/statistics.service.ts` — streak with legacy fallback and the
  cron-tick notification dispatch with its in-memory dedup ledger;
* `src/services/weekly-stats.service.ts` — Monday-Sunday completion stats;
* `src/bot/conversations/plan.ts` — the conversational boundary that truncates
  task lists and offers carry-over into an existing confirmed plan.

Modelling conventions: JS strings are `List Char` (`.trim()` is `trimChars`,
`.slice(0, n)` is `List.take n`); local calendar day keys are `Int` and
`shiftDateInTimezone(d, tz, k)` is day-key addition (the timezone/DST
arithmetic of `getLocalDayKey`/`fromZonedTime` is abstracted into the key
axis itself); database row collections are lists ordered the way the
corresponding `findMany(orderBy: position asc)` returns them; fresh database
ids are threaded explicitly via a `nextId` parameter; clock readings
(`Date.now()`, the minutes-of-day of `toZonedTime(new Date(), tz)`) are
explicit arguments, and `HH:mm` settings strings appear already parsed to
minutes of day, as `parseTime` produces them.
-/

namespace BetterGoals

/-! ### Constants and statuses (task.service.ts, daily-plan.service.ts) -/

def MAX_TASKS_PER_DAY : Nat := 10

def MAX_TASK_TEXT_LENGTH : Nat := 200

inductive TaskStatus
  | pending
  | done
  | inProgress
  | skipped
deriving DecidableEq, Repr

inductive PlanStatus
  | draft
  | confirmed
  | reviewPending
  | reviewed
deriving DecidableEq, Repr

/-! ### Text utilities (task.service.ts lines 27-45) -/

/-- JS `String.prototype.trim()` on a `List Char`. -/
def trimChars (l : List Char) : List Char :=
  ((l.dropWhile Char.isWhitespace).reverse.dropWhile Char.isWhitespace).reverse

/-- One application of the replace in `parseTasksFromMessage`:
`line.replace(/^(?:[-*•]|\d+[.)])\s*/u, '')`. Strips a single leading
bullet (`-`, `*`, `•`) or a digit run followed by `.` or `)`, plus the
whitespace after it; leaves the line unchanged when the pattern misses. -/
def stripListMarker (l : List Char) : List Char :=
  match l with
  | [] => []
  | c :: rest =>
    if c = '-' ∨ c = '*' ∨ c = '•' then
      rest.dropWhile Char.isWhitespace
    else
      let ds := l.takeWhile Char.isDigit
      match l.drop ds.length with
      | [] => l
      | d :: rest2 =>
        if ds ≠ [] ∧ (d = '.' ∨ d = ')') then rest2.dropWhile Char.isWhitespace
        else l

/-- `parseTasksFromMessage` (task.service.ts lines 27-34): split on newlines,
trim, strip one list marker, trim, drop empties, cap each line at
`MAX_TASK_TEXT_LENGTH`. -/
def parseTasksFromMessage (input : List Char) : List (List Char) :=
  ((((input.splitOn '\n').map trimChars).map
        (fun line => trimChars (stripListMarker line))).filter
      (fun line => decide (0 < line.length))).map
    (fun line => line.take MAX_TASK_TEXT_LENGTH)

/-- `normalizeTaskTexts` (task.service.ts lines 39-45): trim, drop empties,
cap each text at `MAX_TASK_TEXT_LENGTH`, cap the list at
`MAX_TASKS_PER_DAY`. -/
def normalizeTaskTexts (taskTexts : List (List Char)) : List (List Char) :=
  (((taskTexts.map trimChars).filter
        (fun text => decide (0 < text.length))).map
      (fun text => text.take MAX_TASK_TEXT_LENGTH)).take MAX_TASKS_PER_DAY

/-! ### Tasks and plans (Prisma rows) -/

/-- A `Task` row. `text` is the free-text body, `position` the 1-based slot
inside its plan, `carriedFromTaskId` the weak back-reference written by
carry-over migration. -/
structure Task where
  id : Nat
  text : List Char
  position : Nat
  status : TaskStatus
  areaId : Option Nat
  carriedFromTaskId : Option Nat
deriving DecidableEq, Repr

/-- A `DailyPlan` row together with its `tasks` in `position asc` order
(the shape `getPlanForDate` returns). The `(userId, date)` key is implicit:
every operation below acts on one plan's row. -/
structure DailyPlan where
  status : PlanStatus
  source : List Char
  confirmedAt : Option Nat
  reviewStartedAt : Option Nat
  reviewCompletedAt : Option Nat
  tasks : List Task
deriving DecidableEq, Repr

/-- `PlanTaskInput` of daily-plan.service.ts; `AppendTaskInput` of
task.service.ts has the identical fields (`text`, `areaId ?? null`,
`carriedFromTaskId ?? null`). -/
structure PlanTaskInput where
  text : List Char
  areaId : Option Nat
  carriedFromTaskId : Option Nat
deriving DecidableEq, Repr

abbrev AppendTaskInput := PlanTaskInput

/-- The row batch built by `tx.task.createMany` in
`createOrReplaceConfirmedPlan` / `appendTaskInputsToPlan`: task `index` gets
`position: startPos + index + 1`, status `pending`, and the input's metadata;
database ids are assigned sequentially from `nextId`. -/
def mkAppendedTasks (nextId startPos : Nat) : List PlanTaskInput → List Task
  | [] => []
  | t :: rest =>
    { id := nextId, text := t.text, position := startPos + 1,
      status := TaskStatus.pending, areaId := t.areaId,
      carriedFromTaskId := t.carriedFromTaskId } ::
      mkAppendedTasks (nextId + 1) (startPos + 1) rest

/-- `createOrReplaceConfirmedPlan` (daily-plan.service.ts lines 176-247):
inside one transaction, delete all existing tasks (when a plan for the key
exists), reset the plan to `confirmed` with a fresh confirmation timestamp and
cleared review timestamps, bulk-insert the inputs at positions
`1..len(taskInputs)`, and return the plan with its ordered tasks. Both the
update and the create branch produce the same observable plan value. -/
def createOrReplaceConfirmedPlan (_existing : Option DailyPlan) (now nextId : Nat)
    (taskInputs : List PlanTaskInput) (source : List Char) : DailyPlan :=
  { status := PlanStatus.confirmed, source := source, confirmedAt := some now,
    reviewStartedAt := none, reviewCompletedAt := none,
    tasks := mkAppendedTasks nextId 0 taskInputs }

/-- The normalization step opening `appendTaskInputsToPlan`
(task.service.ts lines 97-103): trim and cap each text, default the optional
references, drop entries whose text became empty. -/
def normalizeAppendInputs (taskInputs : List AppendTaskInput) : List AppendTaskInput :=
  (taskInputs.map (fun task =>
      { text := (trimChars task.text).take MAX_TASK_TEXT_LENGTH,
        areaId := task.areaId, carriedFromTaskId := task.carriedFromTaskId })).filter
    (fun task => decide (0 < task.text.length))

/-- `appendTaskInputsToPlan` (task.service.ts lines 92-140): normalize the
inputs; when nothing survives return the plan's current ordered tasks; inside
the transaction, when the plan is already at `MAX_TASKS_PER_DAY` return the
current tasks; otherwise insert the first `MAX_TASKS_PER_DAY - count`
normalized inputs with positions continuing the sequence and return the
refreshed ordered list. `current` is the plan's task list in position order. -/
def appendTaskInputsToPlan (nextId : Nat) (current : List Task)
    (taskInputs : List AppendTaskInput) : List Task :=
  let normalized := normalizeAppendInputs taskInputs
  if normalized.length = 0 then current
  else
    let currentCount := current.length
    if MAX_TASKS_PER_DAY ≤ currentCount then current
    else
      current ++
        mkAppendedTasks nextId currentCount
          (normalized.take (MAX_TASKS_PER_DAY - currentCount))

/-- Position reassignment loop of `removeTaskByPositionToday`
(task.service.ts lines 313-325): the surviving tasks, in their current
position order, get positions `1..N`. -/
def reindexTasks : Nat → List Task → List Task
  | _, [] => []
  | i, t :: rest => { t with position := i + 1 } :: reindexTasks (i + 1) rest

/-- `removeTaskByPositionToday` (task.service.ts lines 268-332), acting on the
located plan's ordered task list: find the task at `position` via the
`planId_position` unique key (`find?` on the ordered list), return `none` when
absent; otherwise delete that row, reindex the remaining tasks to a dense
`1..N` sequence in their original relative order, and return the refreshed
ordered list. -/
def removeTaskByPosition (current : List Task) (position : Nat) : Option (List Task) :=
  match current.find? (fun t => decide (t.position = position)) with
  | none => none
  | some t => some (reindexTasks 0 (current.erase t))

/-! ### Carry-over resolver (daily-plan.service.ts lines 157-170, plan.ts) -/

/-- `getCarryOverTasksFromYesterday` (daily-plan.service.ts lines 157-170):
from yesterday's plan (or `[]` when there is none), the tasks with status
`in_progress`, sorted ascending by `position`. -/
def getCarryOverTasksFromYesterday (yesterdayPlan : Option DailyPlan) : List Task :=
  match yesterdayPlan with
  | none => []
  | some plan =>
    (plan.tasks.filter (fun task => decide (task.status = TaskStatus.inProgress))).mergeSort
      (fun a b => decide (a.position ≤ b.position))

/-- `getCarryOverCandidatesFromPlan` (plan.ts lines 116-121) re-implements the
same filter-and-sort over an optional plan. -/
def getCarryOverCandidatesFromPlan (plan : Option DailyPlan) : List Task :=
  getCarryOverTasksFromYesterday plan

/-- `tasks.map(t => t.carriedFromTaskId).filter(Boolean)` over a task list:
the source-task ids already migrated into this plan. -/
def carriedIds (tasks : List Task) : List Nat :=
  tasks.filterMap (fun task => task.carriedFromTaskId)

/-- The carry-over offer into an already-confirmed plan
(plan.ts lines 207-223): candidates from yesterday's plan, minus those whose
id already appears as a `carriedFromTaskId` in the existing plan, capped at
the free slots of the existing plan. -/
def availableCarryOverForExistingPlan (yesterdayPlan : Option DailyPlan)
    (existingPlan : DailyPlan) : List Task :=
  let carryOverTasks := getCarryOverCandidatesFromPlan yesterdayPlan
  let freeSlots := MAX_TASKS_PER_DAY - existingPlan.tasks.length
  (carryOverTasks.filter
      (fun task => decide (task.id ∉ carriedIds existingPlan.tasks))).take freeSlots

/-- Accepting the carry-over offer (plan.ts lines 247-263): append the
available candidates into the existing plan via `appendTaskInputsToPlan`,
writing each candidate's id as `carriedFromTaskId`. -/
def acceptCarryOverIntoExistingPlan (nextId : Nat) (yesterdayPlan : Option DailyPlan)
    (existingPlan : DailyPlan) : DailyPlan :=
  let avail := availableCarryOverForExistingPlan yesterdayPlan existingPlan
  { existingPlan with
    tasks := appendTaskInputsToPlan nextId existingPlan.tasks
      (avail.map (fun task =>
        { text := task.text, areaId := task.areaId,
          carriedFromTaskId := some task.id })) }

/-- The final step of `planConversation` (plan.ts lines 462-471): the
collected draft list is truncated to `MAX_TASKS_PER_DAY` at the conversational
boundary and handed to `createOrReplaceConfirmedPlan`. -/
def planConversationFinalize (existing : Option DailyPlan) (now nextId : Nat)
    (tasks : List PlanTaskInput) (source : List Char) : DailyPlan :=
  createOrReplaceConfirmedPlan existing now nextId
    (tasks.take MAX_TASKS_PER_DAY) source

/-! ### Streak computation (statistics.service.ts lines 58-109,
daily-plan.service.ts lines 297-334)

Local day keys are integers on the user's local calendar-day axis;
`shiftDateInTimezone(date, tz, -1)` is key subtraction. The reviewed /
legacy day-key collections delivered by the `findMany(distinct)` queries
appear as `Finset Int` (the services wrap them in a `Set`). -/

/-- The backward `while (dateSet.has(...))` walk shared by
`calculateStreakFromDateSet` and `calculateActiveDayStreak`: count
consecutive members of `dateSet` from `d` downward, stopping at the first
miss. `fuel` bounds the loop; `dateSet.card` steps always suffice because the
visited days are distinct members of `dateSet`. -/
def streakWalk (dateSet : Finset Int) : Nat → Int → Nat
  | 0, _ => 0
  | fuel + 1, d =>
    if d ∈ dateSet then streakWalk dateSet fuel (d - 1) + 1 else 0

/-- `calculateStreakFromDateSet` (statistics.service.ts lines 58-81):
0 on the empty set; otherwise start the cursor at today, or at yesterday when
today is not in the set, and walk backward while each visited day is in the
set. -/
def calculateStreakFromDateSet (today : Int) (dateSet : Finset Int) : Nat :=
  if dateSet = ∅ then 0
  else
    let start := if today ∈ dateSet then today else today - 1
    streakWalk dateSet dateSet.card start

/-- `calculateStreak` (statistics.service.ts lines 88-109): when at least one
reviewed-plan day key exists, the streak over reviewed plans; otherwise the
fallback streak over legacy progress-entry activity days. -/
def calculateStreak (today : Int)
    (reviewedPlanDayKeys legacyActivityDayKeys : Finset Int) : Nat :=
  if 0 < reviewedPlanDayKeys.card then
    calculateStreakFromDateSet today reviewedPlanDayKeys
  else
    calculateStreakFromDateSet today legacyActivityDayKeys

/-- `calculateActiveDayStreak` (daily-plan.service.ts lines 297-334): the same
cursor walk, inlined over the reviewed-plan day keys only. -/
def calculateActiveDayStreak (today : Int) (reviewedDayKeys : Finset Int) : Nat :=
  if reviewedDayKeys = ∅ then 0
  else
    let cursor := if today ∈ reviewedDayKeys then today else today - 1
    streakWalk reviewedDayKeys reviewedDayKeys.card cursor

/-! ### Weekly stats (weekly-stats.service.ts lines 64-145) -/

/-- JS `Math.round` on the exact rational value: round half toward positive
infinity. -/
def roundHalfUp (q : ℚ) : ℤ := ⌊q + 1 / 2⌋

/-- The fields of `WeeklyStatsResult` involved in the completion-rate
computation. -/
structure WeeklyStatsResult where
  daysWithPlan : Nat
  totalTasks : Nat
  doneTasks : Nat
  completionRate : ℤ
deriving DecidableEq, Repr

/-- The `status: { in: [...] }` filter of the weekly query. -/
def weeklyIncludedStatus (s : PlanStatus) : Bool :=
  decide (s = PlanStatus.confirmed ∨ s = PlanStatus.reviewPending ∨
    s = PlanStatus.reviewed)

/-- `getCalendarWeekStats` (weekly-stats.service.ts lines 64-145) applied to
the plans of the user's Monday-Sunday window: keep plans in status
`confirmed`/`review_pending`/`reviewed`, flatten their tasks, and compute
`completionRate = round(done/total*100)` guarded to `0` when there are no
tasks. -/
def getCalendarWeekStats (weekPlans : List DailyPlan) : WeeklyStatsResult :=
  let plans := weekPlans.filter (fun plan => weeklyIncludedStatus plan.status)
  let tasks := plans.flatMap DailyPlan.tasks
  let totalTasks := tasks.length
  let doneTasks :=
    (tasks.filter (fun task => decide (task.status = TaskStatus.done))).length
  let completionRate :=
    if 0 < totalTasks then
      roundHalfUp (((doneTasks : ℚ) / (totalTasks : ℚ)) * 100)
    else 0
  { daysWithPlan := plans.length, totalTasks := totalTasks,
    doneTasks := doneTasks, completionRate := completionRate }

/-! ### Notification scheduler (statistics.service.ts lines 411-625)

The dedup ledger `sentNotifications` is a map from `userId:type:slot` keys to
`Date.now()` timestamps; a slot is the pair of the local date key
(`buildDateKey(zonedNow)`) and the configured time. A tick happens at one
instant: `now` is its `Date.now()` value in milliseconds, and each user's
zoned clock reading is part of the user's environment. -/

inductive NotificationType
  | morningPlan
  | dailyReminder
  | eveningReview
  | morningReviewFallback
deriving DecidableEq, Repr

/-- The `${dateKey}:${reminderTime}` slot: local date key plus configured
time (minutes of day). -/
structure TimeSlot where
  dateKey : Int
  timeOfDay : Nat
deriving DecidableEq, Repr

/-- The `${userId}:${type}:${slot}` dedup key. -/
structure DedupKey where
  userId : Nat
  kind : NotificationType
  slot : TimeSlot
deriving DecidableEq, Repr

/-- The `sentNotifications` map, as an association list. -/
abbrev Ledger := List (DedupKey × Nat)

/-- 48 hours in milliseconds: the lazy-eviction horizon of `markSent`. -/
def DEDUP_TTL_MS : Nat := 48 * 60 * 60 * 1000

/-- `wasSent` (statistics.service.ts lines 456-459): key membership in the
ledger. -/
def wasSent (led : Ledger) (k : DedupKey) : Bool :=
  led.any (fun e => decide (e.1 = k))

/-- `sentNotifications.set(key, Date.now())`. -/
def setLedgerEntry (led : Ledger) (k : DedupKey) (ts : Nat) : Ledger :=
  if led.any (fun e => decide (e.1 = k)) then
    led.map (fun e => if e.1 = k then (k, ts) else e)
  else led ++ [(k, ts)]

/-- `markSent` (statistics.service.ts lines 461-471): record the key with the
current timestamp, then lazily evict every entry older than 48 hours. -/
def markSent (led : Ledger) (k : DedupKey) (now : Nat) : Ledger :=
  (setLedgerEntry led k now).filter
    (fun e => decide (now - DEDUP_TTL_MS ≤ e.2))

/-- What `sendMessage` hands to the transport for a mid-day reminder: either
the remaining-task listing (up to 3 task texts) or the plan-already-clear
text. -/
inductive ReminderPayload
  | remainingTasks (texts : List (List Char))
  | planClear
deriving DecidableEq, Repr

/-- One outbound mid-day reminder message, tagged with its dedup key. -/
structure SentMsg where
  key : DedupKey
  payload : ReminderPayload
deriving DecidableEq, Repr

/-- Per-user environment read during a tick of `processDailyTaskReminders`:
the user's id, the configured reminder times (minutes of day, as `parseTime`
yields them), today's plan as `getTodayPlan` returns it, and the user's zoned
clock reading (local date key and minutes of day). -/
structure UserEnv where
  id : Nat
  reminderTimes : List Nat
  todayPlan : Option DailyPlan
  localDateKey : Int
  nowMinutes : Nat
deriving Repr

/-- `isTimeMatch` (statistics.service.ts lines 446-454): local time inside
`[target, target + 6)` minutes. -/
def isTimeMatch (nowMinutes target : Nat) : Bool :=
  decide (target ≤ nowMinutes) && decide (nowMinutes < target + 6)

/-- The `${userId}:daily_reminder:${dateKey}:${reminderTime}` dedup key built
inside the reminder loop. -/
def reminderKey (u : UserEnv) (reminderTime : Nat) : DedupKey :=
  ⟨u.id, NotificationType.dailyReminder, ⟨u.localDateKey, reminderTime⟩⟩

/-- The `remaining` tasks of the reminder body: today's tasks whose status is
neither `done` nor `skipped`. -/
def remainingTasksOf (plan : DailyPlan) : List Task :=
  plan.tasks.filter (fun task =>
    decide (task.status ≠ TaskStatus.done ∧ task.status ≠ TaskStatus.skipped))

/-- The message body sent by the reminder: the listing of up to 3 remaining
task texts, or the plan-already-clear message when none remain. -/
def reminderPayloadOf (plan : DailyPlan) : ReminderPayload :=
  if 0 < (remainingTasksOf plan).length then
    ReminderPayload.remainingTasks (((remainingTasksOf plan).take 3).map Task.text)
  else ReminderPayload.planClear

/-- The body of the `for (const reminderTime of reminderTimes)` loop
(statistics.service.ts lines 571-620) for one configured time: skip when the
time window does not match or the slot was already sent; mark without sending
when today's plan is absent, `draft`, or has no tasks; otherwise send the
reminder and mark the slot. -/
def processReminderForTime (now : Nat) (u : UserEnv)
    (acc : Ledger × List SentMsg) (reminderTime : Nat) : Ledger × List SentMsg :=
  if ¬ isTimeMatch u.nowMinutes reminderTime then acc
  else if wasSent acc.1 (reminderKey u reminderTime) then acc
  else
    match u.todayPlan with
    | none => (markSent acc.1 (reminderKey u reminderTime) now, acc.2)
    | some plan =>
      if plan.status = PlanStatus.draft ∨ plan.tasks.length = 0 then
        (markSent acc.1 (reminderKey u reminderTime) now, acc.2)
      else
        (markSent acc.1 (reminderKey u reminderTime) now,
          acc.2 ++ [⟨reminderKey u reminderTime, reminderPayloadOf plan⟩])

/-- `processDailyTaskReminders` (statistics.service.ts lines 560-625): one
tick's sweep over the onboarded users; for each user, evaluate every
configured reminder time against the shared ledger, collecting the outbound
messages. -/
def processDailyTaskReminders (now : Nat) (users : List UserEnv)
    (led : Ledger) : Ledger × List SentMsg :=
  users.foldl
    (fun acc u => u.reminderTimes.foldl (processReminderForTime now u) acc)
    (led, [])

/-- Number of messages in a batch carrying a given dedup key. -/
def countKey (msgs : List SentMsg) (k : DedupKey) : Nat :=
  msgs.countP (fun m => decide (m.key = k))

/-- Every ledger entry is younger than the 48-hour eviction horizon as seen
from instant `n`. -/
def FreshLedger (n : Nat) (led : Ledger) : Prop :=
  ∀ e ∈ led, n ≤ e.2 + DEDUP_TTL_MS

/-- The ledger holds an entry for `k` young enough to survive evictions
performed at instant `n`. -/
def SentFresh (n : Nat) (led : Ledger) (k : DedupKey) : Prop :=
  ∃ e ∈ led, e.1 = k ∧ n ≤ e.2 + DEDUP_TTL_MS

/-! ### Helper lemmas: created task batches and reindexing -/

lemma mkAppendedTasks_length (l : List PlanTaskInput) :
    ∀ nextId startPos, (mkAppendedTasks nextId startPos l).length = l.length := by
  induction l with
  | nil => intro n p; rfl
  | cons t rest ih => intro n p; simp [mkAppendedTasks, ih]

lemma mkAppendedTasks_map_position (l : List PlanTaskInput) :
    ∀ nextId startPos,
      (mkAppendedTasks nextId startPos l).map Task.position
        = List.range' (startPos + 1) l.length := by
  induction l with
  | nil => intro n p; rfl
  | cons t rest ih =>
    intro n p
    simp [mkAppendedTasks, List.range'_succ, ih]

lemma mkAppendedTasks_map_text (l : List PlanTaskInput) :
    ∀ nextId startPos,
      (mkAppendedTasks nextId startPos l).map Task.text = l.map PlanTaskInput.text := by
  induction l with
  | nil => intro n p; rfl
  | cons t rest ih => intro n p; simp [mkAppendedTasks, ih]

lemma mkAppendedTasks_map_carried (l : List PlanTaskInput) :
    ∀ nextId startPos,
      (mkAppendedTasks nextId startPos l).map Task.carriedFromTaskId
        = l.map PlanTaskInput.carriedFromTaskId := by
  induction l with
  | nil => intro n p; rfl
  | cons t rest ih => intro n p; simp [mkAppendedTasks, ih]

lemma reindexTasks_map_position (l : List Task) :
    ∀ i, (reindexTasks i l).map Task.position = List.range' (i + 1) l.length := by
  induction l with
  | nil => intro i; rfl
  | cons t rest ih =>
    intro i
    simp [reindexTasks, List.range'_succ, ih]

lemma reindexTasks_map_id (l : List Task) :
    ∀ i, (reindexTasks i l).map Task.id = l.map Task.id := by
  induction l with
  | nil => intro i; rfl
  | cons t rest ih => intro i; simp [reindexTasks, ih]

lemma reindexTasks_length (l : List Task) :
    ∀ i, (reindexTasks i l).length = l.length := by
  induction l with
  | nil => intro i; rfl
  | cons t rest ih => intro i; simp [reindexTasks, ih]

lemma range'_one_append (s m n : Nat) :
    List.range' s m ++ List.range' (s + m) n = List.range' s (m + n) := by
  have h := List.range'_append s m n 1
  rw [Nat.one_mul] at h
  rw [Nat.add_comm n m] at h
  exact h

/-- The closed form of `appendTaskInputsToPlan`: the plan's current tasks
followed by the batch built from the first `MAX_TASKS_PER_DAY - count`
normalized inputs. The truncated subtraction realizes `max(0, 10 - count)`. -/
lemma appendTaskInputsToPlan_eq (nextId : Nat) (current : List Task)
    (taskInputs : List AppendTaskInput) :
    appendTaskInputsToPlan nextId current taskInputs
      = current ++
          mkAppendedTasks nextId current.length
            ((normalizeAppendInputs taskInputs).take
              (MAX_TASKS_PER_DAY - current.length)) := by
  unfold appendTaskInputsToPlan
  by_cases hn : (normalizeAppendInputs taskInputs).length = 0
  · rw [List.length_eq_zero] at hn
    simp [hn, mkAppendedTasks]
  · by_cases hc : MAX_TASKS_PER_DAY ≤ current.length
    · have hz : MAX_TASKS_PER_DAY - current.length = 0 := Nat.sub_eq_zero_of_le hc
      simp [hn, hc, hz, mkAppendedTasks]
    · simp [hn, hc]

/-! ### C7: append contract -/

/-- Claim C7: for every plan with current task count `c` and every incoming
task list, `appendTaskInputsToPlan` inserts exactly the first
`max(0, 10 - c)` tasks of the normalized list, with positions
`c+1, c+2, ...` continuing the existing sequence, silently dropping the
excess, and returns the full refreshed ordered task list (current tasks
followed by the inserted ones). -/
theorem appendTasks_spec (nextId : Nat) (current : List Task)
    (taskInputs : List AppendTaskInput) :
    appendTaskInputsToPlan nextId current taskInputs
      = current ++
          mkAppendedTasks nextId current.length
            ((normalizeAppendInputs taskInputs).take
              (MAX_TASKS_PER_DAY - current.length)) ∧
    (mkAppendedTasks nextId current.length
        ((normalizeAppendInputs taskInputs).take
          (MAX_TASKS_PER_DAY - current.length))).length
      = min (normalizeAppendInputs taskInputs).length
          (MAX_TASKS_PER_DAY - current.length) ∧
    (mkAppendedTasks nextId current.length
        ((normalizeAppendInputs taskInputs).take
          (MAX_TASKS_PER_DAY - current.length))).map Task.position
      = List.range' (current.length + 1)
          (min (normalizeAppendInputs taskInputs).length
            (MAX_TASKS_PER_DAY - current.length)) ∧
    (mkAppendedTasks nextId current.length
        ((normalizeAppendInputs taskInputs).take
          (MAX_TASKS_PER_DAY - current.length))).map Task.text
      = ((normalizeAppendInputs taskInputs).take
          (MAX_TASKS_PER_DAY - current.length)).map PlanTaskInput.text := by
  refine ⟨appendTaskInputsToPlan_eq nextId current taskInputs, ?_, ?_, ?_⟩
  · rw [mkAppendedTasks_length, List.length_take, Nat.min_comm]
  · rw [mkAppendedTasks_map_position, List.length_take, Nat.min_comm]
  · exact mkAppendedTasks_map_text _ _ _

/-! ### C9: append frame conditions -/

/-- Claim C9: when the target plan already holds `MAX_TASKS_PER_DAY` tasks,
or every incoming task text trims to empty, `appendTaskInputsToPlan` inserts
nothing and returns the plan's existing ordered task list unchanged. -/
theorem appendTasks_frame (nextId : Nat) (current : List Task)
    (taskInputs : List AppendTaskInput)
    (h : MAX_TASKS_PER_DAY ≤ current.length ∨
      ∀ t ∈ taskInputs, trimChars t.text = []) :
    appendTaskInputsToPlan nextId current taskInputs = current := by
  unfold appendTaskInputsToPlan
  rcases h with hcap | hempty
  · by_cases hn : (normalizeAppendInputs taskInputs).length = 0
    · simp [hn]
    · simp [hn, hcap]
  · have hnil : normalizeAppendInputs taskInputs = [] := by
      unfold normalizeAppendInputs
      rw [List.filter_eq_nil_iff]
      intro a ha
      rw [List.mem_map] at ha
      obtain ⟨t, ht, rfl⟩ := ha
      simp [hempty t ht]
    simp [hnil]

/-- Witness for C9 at a concrete whitespace-only input. -/
theorem appendTasks_frame_witness :
    appendTaskInputsToPlan 0 []
      [{ text := "   ".toList, areaId := none, carriedFromTaskId := none }] = [] :=
  appendTasks_frame 0 [] _ (Or.inr (by decide))

/-! ### C2: create-or-replace stores positions 1..len, cap at the boundary -/

/-- Claim C2: the plan-creation flow stores the provided tasks with positions
`1..len(taskList)`; the 10-task cap is enforced by the conversational
boundary's truncation (`tasks.slice(0, MAX_TASKS_PER_DAY)`), never by an
error, so the stored plan has at most `MAX_TASKS_PER_DAY` tasks regardless of
the input length. -/
theorem createOrReplacePlan_positions_and_cap (existing : Option DailyPlan)
    (now nextId : Nat) (draftTasks : List PlanTaskInput) (source : List Char) :
    (planConversationFinalize existing now nextId draftTasks source).tasks.length
        ≤ MAX_TASKS_PER_DAY ∧
    (planConversationFinalize existing now nextId draftTasks source).tasks.length
        = min draftTasks.length MAX_TASKS_PER_DAY ∧
    (planConversationFinalize existing now nextId draftTasks source).tasks.map
          Task.position
        = List.range' 1 (min draftTasks.length MAX_TASKS_PER_DAY) ∧
    (planConversationFinalize existing now nextId draftTasks source).tasks.map
          Task.text
        = (draftTasks.take MAX_TASKS_PER_DAY).map PlanTaskInput.text ∧
    ∀ taskInputs : List PlanTaskInput,
      (createOrReplaceConfirmedPlan existing now nextId taskInputs source).tasks.map
          Task.position
        = List.range' 1 taskInputs.length := by
  have hlen :
      (planConversationFinalize existing now nextId draftTasks source).tasks.length
        = min draftTasks.length MAX_TASKS_PER_DAY := by
    unfold planConversationFinalize createOrReplaceConfirmedPlan
    rw [mkAppendedTasks_length, List.length_take, Nat.min_comm]
  refine ⟨?_, hlen, ?_, ?_, ?_⟩
  · rw [hlen]; exact Nat.min_le_right _ _
  · unfold planConversationFinalize createOrReplaceConfirmedPlan
    rw [mkAppendedTasks_map_position, List.length_take, Nat.min_comm]
  · unfold planConversationFinalize createOrReplaceConfirmedPlan
    exact mkAppendedTasks_map_text _ _ _
  · intro taskInputs
    unfold createOrReplaceConfirmedPlan
    exact mkAppendedTasks_map_position _ _ _

/-! ### C4: dense-position invariant across the three mutating operations -/

/-- Claim C4: immediately after any of the three mutating operations —
create-or-replace, append, remove-at-position — the plan's task positions
form exactly the dense sequence `1..N` (no gaps, no duplicates), and removal
preserves the relative order of the surviving tasks. -/
theorem plan_positions_invariant :
    (∀ (existing : Option DailyPlan) (now nextId : Nat)
        (taskInputs : List PlanTaskInput) (source : List Char),
      (createOrReplaceConfirmedPlan existing now nextId taskInputs source).tasks.map
          Task.position
        = List.range' 1 taskInputs.length) ∧
    (∀ (nextId : Nat) (current : List Task) (taskInputs : List AppendTaskInput),
      current.map Task.position = List.range' 1 current.length →
      (appendTaskInputsToPlan nextId current taskInputs).map Task.position
        = List.range' 1 (appendTaskInputsToPlan nextId current taskInputs).length) ∧
    (∀ (current : List Task) (position : Nat) (res : List Task),
      current.map Task.position = List.range' 1 current.length →
      removeTaskByPosition current position = some res →
      res.map Task.position = List.range' 1 res.length ∧
      List.Sublist (res.map Task.id) (current.map Task.id)) := by
  refine ⟨?_, ?_, ?_⟩
  · intro existing now nextId taskInputs source
    unfold createOrReplaceConfirmedPlan
    exact mkAppendedTasks_map_position _ _ _
  · intro nextId current taskInputs hdense
    rw [appendTaskInputsToPlan_eq]
    rw [List.map_append, List.length_append, hdense, mkAppendedTasks_map_position,
      mkAppendedTasks_length]
    have h := range'_one_append 1 current.length
      ((normalizeAppendInputs taskInputs).take
        (MAX_TASKS_PER_DAY - current.length)).length
    rw [Nat.add_comm 1 current.length] at h
    exact h
  · intro current position res hdense hrem
    unfold removeTaskByPosition at hrem
    rcases hfind : current.find? (fun t => decide (t.position = position)) with _ | t
    · rw [hfind] at hrem; cases hrem
    · rw [hfind] at hrem
      cases hrem
      constructor
      · rw [reindexTasks_map_position, reindexTasks_length]
      · rw [reindexTasks_map_id]
        exact List.Sublist.map Task.id (List.erase_sublist t current)

/-- Witness for C4 at the spec scenario: removing position 2 of a three-task
plan `[A, B, C]` yields `[A, C]` with positions `[1, 2]`. -/
theorem plan_positions_invariant_witness :
    removeTaskByPosition
        [⟨1, ['A'], 1, TaskStatus.pending, none, none⟩,
         ⟨2, ['B'], 2, TaskStatus.pending, none, none⟩,
         ⟨3, ['C'], 3, TaskStatus.pending, none, none⟩] 2
      = some [⟨1, ['A'], 1, TaskStatus.pending, none, none⟩,
              ⟨3, ['C'], 2, TaskStatus.pending, none, none⟩] ∧
    ([⟨1, ['A'], 1, TaskStatus.pending, none, none⟩,
      ⟨3, ['C'], 2, TaskStatus.pending, none, none⟩] : List Task).map Task.position
      = List.range' 1 2 ∧
    List.Sublist
      (([⟨1, ['A'], 1, TaskStatus.pending, none, none⟩,
         ⟨3, ['C'], 2, TaskStatus.pending, none, none⟩] : List Task).map Task.id)
      (([⟨1, ['A'], 1, TaskStatus.pending, none, none⟩,
         ⟨2, ['B'], 2, TaskStatus.pending, none, none⟩,
         ⟨3, ['C'], 3, TaskStatus.pending, none, none⟩] : List Task).map Task.id) := by
  refine ⟨by decide, ?_⟩
  have h := plan_positions_invariant.2.2
    [⟨1, ['A'], 1, TaskStatus.pending, none, none⟩,
     ⟨2, ['B'], 2, TaskStatus.pending, none, none⟩,
     ⟨3, ['C'], 3, TaskStatus.pending, none, none⟩] 2
    [⟨1, ['A'], 1, TaskStatus.pending, none, none⟩,
     ⟨3, ['C'], 2, TaskStatus.pending, none, none⟩] (by decide) (by decide)
  exact h

/-! ### Helper lemmas: the streak walk -/

lemma streakWalk_le (dateSet : Finset Int) :
    ∀ fuel d, streakWalk dateSet fuel d ≤ fuel := by
  intro fuel
  induction fuel with
  | zero => intro d; simp [streakWalk]
  | succ fuel ih =>
    intro d
    rw [streakWalk]
    split
    · exact Nat.succ_le_succ (ih (d - 1))
    · exact Nat.zero_le _

/-- Every day visited by the walk is in the set. -/
lemma streakWalk_mem (dateSet : Finset Int) :
    ∀ fuel d k, k < streakWalk dateSet fuel d → d - (k : Int) ∈ dateSet := by
  intro fuel
  induction fuel with
  | zero => intro d k hk; simp [streakWalk] at hk
  | succ fuel ih =>
    intro d k hk
    rw [streakWalk] at hk
    by_cases hd : d ∈ dateSet
    · rw [if_pos hd] at hk
      cases k with
      | zero => simpa using hd
      | succ k =>
        have hk' : k < streakWalk dateSet fuel (d - 1) := by omega
        have h := ih (d - 1) k hk'
        have harith : d - 1 - (k : Int) = d - ((k : Nat) + 1 : Nat) := by
          push_cast
          ring
        rwa [harith] at h
    · rw [if_neg hd] at hk
      omega

/-- When the walk stops strictly before exhausting its fuel, the cursor
stands on a missing day. -/
lemma streakWalk_stop (dateSet : Finset Int) :
    ∀ fuel d, streakWalk dateSet fuel d < fuel →
      d - (streakWalk dateSet fuel d : Int) ∉ dateSet := by
  intro fuel
  induction fuel with
  | zero => intro d hd; omega
  | succ fuel ih =>
    intro d hd
    rw [streakWalk] at hd ⊢
    by_cases hmem : d ∈ dateSet
    · rw [if_pos hmem] at hd ⊢
      have hlt : streakWalk dateSet fuel (d - 1) < fuel := by omega
      have h := ih (d - 1) hlt
      have harith :
          d - ((streakWalk dateSet fuel (d - 1) + 1 : Nat) : Int)
            = d - 1 - (streakWalk dateSet fuel (d - 1) : Int) := by
        push_cast
        ring
      rwa [harith]
    · rw [if_neg hmem]
      simpa using hmem

/-- With `dateSet.card` fuel the walk always ends on a missing day: a run of
`card` consecutive members would already exhaust the whole set. -/
lemma streakWalk_miss (dateSet : Finset Int) (d : Int) :
    d - (streakWalk dateSet dateSet.card d : Int) ∉ dateSet := by
  set w := streakWalk dateSet dateSet.card d with hw
  rcases Nat.lt_or_ge w dateSet.card with hlt | hge
  · exact streakWalk_stop dateSet dateSet.card d hlt
  · have hcard : w = dateSet.card :=
      Nat.le_antisymm (streakWalk_le dateSet dateSet.card d) hge
    intro hmem
    have hinj : Function.Injective (fun k : Nat => d - (k : Int)) := by
      intro a b hab
      simp only at hab
      omega
    have himg : (Finset.range dateSet.card).image (fun k : Nat => d - (k : Int))
        ⊆ dateSet := by
      intro x hx
      rw [Finset.mem_image] at hx
      obtain ⟨k, hk, rfl⟩ := hx
      rw [Finset.mem_range] at hk
      exact streakWalk_mem dateSet dateSet.card d k (by omega)
    have hcardimg :
        ((Finset.range dateSet.card).image (fun k : Nat => d - (k : Int))).card
          = dateSet.card := by
      rw [Finset.card_image_of_injective _ hinj, Finset.card_range]
    have heq : (Finset.range dateSet.card).image (fun k : Nat => d - (k : Int))
        = dateSet :=
      Finset.eq_of_subset_of_card_le himg (le_of_eq hcardimg.symm)
    rw [← heq, Finset.mem_image] at hmem
    obtain ⟨k, hk, hkeq⟩ := hmem
    rw [Finset.mem_range] at hk
    omega

/-- The run length is determined by its two characteristic properties. -/
lemma streak_run_unique (dateSet : Finset Int) (d : Int) {r n : Nat}
    (hr₁ : ∀ k : Nat, k < r → d - (k : Int) ∈ dateSet)
    (hr₂ : d - (r : Int) ∉ dateSet)
    (hn₁ : ∀ k : Nat, k < n → d - (k : Int) ∈ dateSet)
    (hn₂ : d - (n : Int) ∉ dateSet) : r = n := by
  rcases Nat.lt_trichotomy r n with h | h | h
  · exact absurd (hn₁ r h) hr₂
  · exact h
  · exact absurd (hr₁ n h) hn₂

/-! ### C6: the streak walk -/

/-- Claim C6: on a nonempty set of reviewed local-day keys, the streak starts
its cursor at today (or yesterday when today is not reviewed), counts
consecutive set members walking backward one day at a time, and stops at the
first miss; consequently reviewing `D, D-1, D-2` (with `D` = today) yields 3,
while a miss at `D-1` caps the streak at 1 even if `D-2` and `D-3` are
reviewed. `calculateActiveDayStreak` implements the identical walk. -/
theorem streak_walk_spec (dateSet : Finset Int) (today : Int)
    (hne : dateSet.Nonempty) :
    ((∀ k : Nat, k < calculateStreakFromDateSet today dateSet →
        (if today ∈ dateSet then today else today - 1) - (k : Int) ∈ dateSet) ∧
      (if today ∈ dateSet then today else today - 1) -
          (calculateStreakFromDateSet today dateSet : Int) ∉ dateSet) ∧
    calculateActiveDayStreak today dateSet
      = calculateStreakFromDateSet today dateSet ∧
    calculateStreakFromDateSet today {today, today - 1, today - 2} = 3 ∧
    calculateStreakFromDateSet today {today, today - 2, today - 3} = 1 := by
  have hne' : dateSet ≠ ∅ := Finset.nonempty_iff_ne_empty.mp hne
  have hopen :
      calculateStreakFromDateSet today dateSet
        = streakWalk dateSet dateSet.card
            (if today ∈ dateSet then today else today - 1) := by
    unfold calculateStreakFromDateSet
    rw [if_neg hne']
  have hchar :
      ∀ s : Finset Int, s ≠ ∅ → ∀ t : Int,
        (∀ k : Nat, k < calculateStreakFromDateSet t s →
          (if t ∈ s then t else t - 1) - (k : Int) ∈ s) ∧
        (if t ∈ s then t else t - 1) -
            (calculateStreakFromDateSet t s : Int) ∉ s := by
    intro s hs t
    have hopen' :
        calculateStreakFromDateSet t s
          = streakWalk s s.card (if t ∈ s then t else t - 1) := by
      unfold calculateStreakFromDateSet
      rw [if_neg hs]
    constructor
    · intro k hk
      rw [hopen'] at hk
      exact streakWalk_mem s s.card _ k hk
    · rw [hopen']
      exact streakWalk_miss s _
  refine ⟨hchar dateSet hne' today, rfl, ?_, ?_⟩
  · -- reviewing D, D-1, D-2 yields 3
    set s₃ : Finset Int := {today, today - 1, today - 2} with hs₃
    have hmem : today ∈ s₃ := by simp [hs₃]
    have hne₃ : s₃ ≠ ∅ := by
      intro h
      rw [Finset.eq_empty_iff_forall_not_mem] at h
      exact h today hmem
    obtain ⟨h₁, h₂⟩ := hchar s₃ hne₃ today
    rw [if_pos hmem] at h₁ h₂
    refine streak_run_unique s₃ today h₁ h₂ ?_ ?_
    · intro k hk
      interval_cases k
      · simpa using hmem
      · simp [hs₃, Finset.mem_insert]
      · simp [hs₃, Finset.mem_insert]
    · simp only [hs₃, Finset.mem_insert, Finset.mem_singleton]
      push_cast
      omega
  · -- a miss at D-1 caps the streak at 1
    set s₁ : Finset Int := {today, today - 2, today - 3} with hs₁
    have hmem : today ∈ s₁ := by simp [hs₁]
    have hne₁ : s₁ ≠ ∅ := by
      intro h
      rw [Finset.eq_empty_iff_forall_not_mem] at h
      exact h today hmem
    obtain ⟨h₁, h₂⟩ := hchar s₁ hne₁ today
    rw [if_pos hmem] at h₁ h₂
    refine streak_run_unique s₁ today h₁ h₂ ?_ ?_
    · intro k hk
      interval_cases k
      simpa using hmem
    · simp only [hs₁, Finset.mem_insert, Finset.mem_singleton]
      push_cast
      omega

/-- Witness for C6 at today = 0 with reviewed days 0, -1, -2. -/
theorem streak_walk_spec_witness :
    ({0, -1, -2} : Finset Int).Nonempty ∧
    calculateStreakFromDateSet 0 ({0, -1, -2} : Finset Int) = 3 :=
  ⟨by decide, by
    have h := (streak_walk_spec ({0, -1, -2} : Finset Int) 0 (by decide)).2.2.1
    simpa using h⟩

/-! ### C1: streak on an empty reviewed set falls back to legacy activity -/

/-- Counterexample to claim C1 as stated: a user whose set of reviewed plans
is empty but who has one legacy progress-entry activity day (today) gets
streak 1, not 0, from `calculateStreak`. -/
theorem calculateStreak_legacy_fallback_nonzero :
    calculateStreak 0 ∅ {0} = 1 ∧ calculateStreak 0 ∅ {0} ≠ 0 := by
  constructor
  · decide
  · decide

/-- Claim C1 as amended: with no reviewed plan, `calculateActiveDayStreak`
returns 0, while `calculateStreak` falls back to the legacy progress-entry
streak and therefore returns 0 exactly when the user has no legacy activity
either. -/
theorem calculateStreak_empty_reviewed_behavior (today : Int)
    (legacyActivityDayKeys : Finset Int) :
    calculateActiveDayStreak today ∅ = 0 ∧
    calculateStreak today ∅ legacyActivityDayKeys
      = calculateStreakFromDateSet today legacyActivityDayKeys ∧
    calculateStreak today ∅ ∅ = 0 := by
  refine ⟨rfl, ?_, rfl⟩
  unfold calculateStreak
  simp

/-! ### C8: weekly completion rate -/

/-- Claim C8: the weekly completion rate equals `round(done/total * 100)`
when the window holds at least one task and equals 0 — not an error value —
when it holds none; the guard keeps the rate inside `[0, 100]` in every
case. -/
lemma roundHalfUp_bounds {d t : Nat} (hdt : d ≤ t) (ht : 0 < t) :
    0 ≤ roundHalfUp ((d : ℚ) / (t : ℚ) * 100) ∧
    roundHalfUp ((d : ℚ) / (t : ℚ) * 100) ≤ 100 := by
  have hq0 : (0 : ℚ) ≤ (d : ℚ) / (t : ℚ) * 100 := by
    apply mul_nonneg _ (by norm_num)
    apply div_nonneg
    · exact_mod_cast Nat.zero_le _
    · exact_mod_cast Nat.zero_le _
  have hpos : (0 : ℚ) < (t : ℚ) := by exact_mod_cast ht
  have h1 : (d : ℚ) / (t : ℚ) ≤ 1 := by
    rw [div_le_one hpos]
    exact_mod_cast hdt
  have hq100 : (d : ℚ) / (t : ℚ) * 100 ≤ 100 := by
    calc (d : ℚ) / (t : ℚ) * 100
        ≤ 1 * 100 := mul_le_mul_of_nonneg_right h1 (by norm_num)
      _ = 100 := by norm_num
  constructor
  · unfold roundHalfUp
    rw [Int.le_floor]
    push_cast
    linarith
  · unfold roundHalfUp
    have hlt : ⌊(d : ℚ) / (t : ℚ) * 100 + 1 / 2⌋ < 101 := by
      rw [Int.floor_lt]
      push_cast
      linarith
    omega

lemma getCalendarWeekStats_totalTasks (weekPlans : List DailyPlan) :
    (getCalendarWeekStats weekPlans).totalTasks
      = ((weekPlans.filter (fun plan => weeklyIncludedStatus plan.status)).flatMap
          DailyPlan.tasks).length := rfl

lemma getCalendarWeekStats_doneTasks (weekPlans : List DailyPlan) :
    (getCalendarWeekStats weekPlans).doneTasks
      = (((weekPlans.filter (fun plan => weeklyIncludedStatus plan.status)).flatMap
            DailyPlan.tasks).filter
          (fun task => decide (task.status = TaskStatus.done))).length := rfl

lemma getCalendarWeekStats_completionRate (weekPlans : List DailyPlan) :
    (getCalendarWeekStats weekPlans).completionRate
      = (if 0 < (getCalendarWeekStats weekPlans).totalTasks then
          roundHalfUp
            (((getCalendarWeekStats weekPlans).doneTasks : ℚ) /
                ((getCalendarWeekStats weekPlans).totalTasks : ℚ) * 100)
        else 0) := rfl

theorem weekly_completion_rate_spec (weekPlans : List DailyPlan) :
    ((getCalendarWeekStats weekPlans).totalTasks = 0 →
      (getCalendarWeekStats weekPlans).completionRate = 0) ∧
    (0 < (getCalendarWeekStats weekPlans).totalTasks →
      (getCalendarWeekStats weekPlans).completionRate
        = roundHalfUp
            (((getCalendarWeekStats weekPlans).doneTasks : ℚ) /
                ((getCalendarWeekStats weekPlans).totalTasks : ℚ) * 100)) ∧
    0 ≤ (getCalendarWeekStats weekPlans).completionRate ∧
    (getCalendarWeekStats weekPlans).completionRate ≤ 100 := by
  have hdt : (getCalendarWeekStats weekPlans).doneTasks
      ≤ (getCalendarWeekStats weekPlans).totalTasks := by
    rw [getCalendarWeekStats_totalTasks, getCalendarWeekStats_doneTasks]
    exact List.length_filter_le _ _
  rw [getCalendarWeekStats_completionRate]
  by_cases hz : 0 < (getCalendarWeekStats weekPlans).totalTasks
  · rw [if_pos hz]
    obtain ⟨hlo, hhi⟩ := roundHalfUp_bounds hdt hz
    exact ⟨by omega, fun _ => rfl, hlo, hhi⟩
  · rw [if_neg hz]
    exact ⟨fun _ => rfl, by omega, le_refl 0, by norm_num⟩

/-- Witness for C8 at a one-plan window with one of two tasks done: the rate
is `round(1/2 * 100)`. -/
theorem weekly_completion_rate_spec_witness :
    0 < (getCalendarWeekStats
        [{ status := PlanStatus.reviewed, source := [], confirmedAt := none,
           reviewStartedAt := none, reviewCompletedAt := none,
           tasks := [⟨1, ['a'], 1, TaskStatus.done, none, none⟩,
                     ⟨2, ['b'], 2, TaskStatus.pending, none, none⟩] }]).totalTasks ∧
    (getCalendarWeekStats
        [{ status := PlanStatus.reviewed, source := [], confirmedAt := none,
           reviewStartedAt := none, reviewCompletedAt := none,
           tasks := [⟨1, ['a'], 1, TaskStatus.done, none, none⟩,
                     ⟨2, ['b'], 2, TaskStatus.pending, none, none⟩] }]).completionRate
      = roundHalfUp
          (((getCalendarWeekStats
              [{ status := PlanStatus.reviewed, source := [], confirmedAt := none,
                 reviewStartedAt := none, reviewCompletedAt := none,
                 tasks := [⟨1, ['a'], 1, TaskStatus.done, none, none⟩,
                           ⟨2, ['b'], 2, TaskStatus.pending, none, none⟩] }]).doneTasks : ℚ) /
              ((getCalendarWeekStats
                [{ status := PlanStatus.reviewed, source := [], confirmedAt := none,
                   reviewStartedAt := none, reviewCompletedAt := none,
                   tasks := [⟨1, ['a'], 1, TaskStatus.done, none, none⟩,
                             ⟨2, ['b'], 2, TaskStatus.pending, none, none⟩] }]).totalTasks : ℚ) *
              100) :=
  ⟨by decide,
    (weekly_completion_rate_spec
      [{ status := PlanStatus.reviewed, source := [], confirmedAt := none,
         reviewStartedAt := none, reviewCompletedAt := none,
         tasks := [⟨1, ['a'], 1, TaskStatus.done, none, none⟩,
                   ⟨2, ['b'], 2, TaskStatus.pending, none, none⟩] }]).2.1 (by decide)⟩

/-! ### C10: task parsing and normalization -/

lemma dropWhile_eq_cons_head_false {α : Type} (p : α → Bool) :
    ∀ (l : List α) {c : α} {t : List α}, l.dropWhile p = c :: t → p c = false := by
  intro l
  induction l with
  | nil => intro c t h; cases h
  | cons a rest ih =>
    intro c t h
    rw [List.dropWhile_cons] at h
    by_cases ha : p a = true
    · rw [if_pos ha] at h
      exact ih h
    · rw [if_neg ha] at h
      cases h
      exact Bool.eq_false_iff.mpr ha

/-- The head of a trimmed string is never whitespace. -/
lemma trimChars_head_not_white (l : List Char) {c : Char} {t : List Char}
    (h : trimChars l = c :: t) : c.isWhitespace = false := by
  unfold trimChars at h
  have hsuffix :
      (l.dropWhile Char.isWhitespace).reverse.dropWhile Char.isWhitespace
        <:+ (l.dropWhile Char.isWhitespace).reverse :=
    List.dropWhile_suffix Char.isWhitespace
  have hpre :
      ((l.dropWhile Char.isWhitespace).reverse.dropWhile Char.isWhitespace).reverse
        <+: l.dropWhile Char.isWhitespace := by
    rw [← List.reverse_suffix]
    simpa using hsuffix
  rw [h] at hpre
  obtain ⟨r, hr⟩ := hpre
  have hcons : l.dropWhile Char.isWhitespace = c :: (t ++ r) := by
    rw [← hr]; rfl
  exact dropWhile_eq_cons_head_false Char.isWhitespace l hcons

set_option maxRecDepth 4000 in
/-- Counterexample to claim C10 as stated: a single marker strip leaves the
nested bullet of `"- - task"` in place, so an output line can still start
with `-`; and a 201-character trimmed line is cut at 200 characters after
trimming, so an output line can end in whitespace. -/
theorem parse_tasks_claim_counterexample :
    parseTasksFromMessage ("- - task".toList) = ["- task".toList] ∧
    ((parseTasksFromMessage ("- - task".toList)).any
        (fun s => decide (s.take 1 = ['-']))) = true ∧
    ((parseTasksFromMessage (List.replicate 199 'a' ++ [' ', 'b'])).any
        (fun s => decide (s.getLast? = some ' '))) = true := by
  refine ⟨by decide, by decide, by decide⟩

/-- Claim C10 as amended: every string produced by `parseTasksFromMessage` is
non-empty, at most `MAX_TASK_TEXT_LENGTH` characters, and free of leading
whitespace (one leading bullet or numbering marker having been stripped); a
nested marker can survive the single strip, and the post-trim cut at 200
characters can leave trailing whitespace. `normalizeTaskTexts` returns at
most `MAX_TASKS_PER_DAY` strings. -/
theorem parse_tasks_normalization_spec :
    (∀ (input : List Char) (s : List Char), s ∈ parseTasksFromMessage input →
      s ≠ [] ∧ s.length ≤ MAX_TASK_TEXT_LENGTH ∧
        ∀ c ∈ s.take 1, c.isWhitespace = false) ∧
    ∀ taskTexts : List (List Char),
      (normalizeTaskTexts taskTexts).length ≤ MAX_TASKS_PER_DAY := by
  constructor
  · intro input s hs
    unfold parseTasksFromMessage at hs
    rw [List.mem_map] at hs
    obtain ⟨line, hline, rfl⟩ := hs
    rw [List.mem_filter] at hline
    obtain ⟨hline_mem, hline_pos⟩ := hline
    rw [List.mem_map] at hline_mem
    obtain ⟨raw, _, hline_eq⟩ := hline_mem
    rw [decide_eq_true_eq] at hline_pos
    refine ⟨?_, List.length_take_le _ _, ?_⟩
    · apply List.ne_nil_of_length_pos
      rw [List.length_take]
      have h200 : 0 < MAX_TASK_TEXT_LENGTH := by norm_num [MAX_TASK_TEXT_LENGTH]
      omega
    · intro c hc
      rw [List.take_take] at hc
      have h1 : min 1 MAX_TASK_TEXT_LENGTH = 1 := by
        simp [MAX_TASK_TEXT_LENGTH]
      rw [h1] at hc
      rcases hl : line with _ | ⟨x, rest⟩
      · rw [hl] at hc; cases hc
      · rw [hl] at hc
        simp only [List.take_succ_cons, List.take_zero, List.mem_singleton] at hc
        subst hc
        rw [hl] at hline_eq
        exact trimChars_head_not_white _ hline_eq
  · intro taskTexts
    unfold normalizeTaskTexts
    exact List.length_take_le _ _

/-- Witness for C10 at the input "task". -/
theorem parse_tasks_normalization_spec_witness :
    ("task".toList ∈ parseTasksFromMessage ("task".toList)) ∧
    ("task".toList ≠ [] ∧ ("task".toList).length ≤ MAX_TASK_TEXT_LENGTH ∧
      ∀ c ∈ ("task".toList).take 1, c.isWhitespace = false) :=
  ⟨by decide,
    parse_tasks_normalization_spec.1 ("task".toList) ("task".toList) (by decide)⟩

/-! ### C3: carry-over resolver -/

/-- The task list of an optional plan (`plan ? plan.tasks : []`). -/
def planTasksOf : Option DailyPlan → List Task
  | none => []
  | some plan => plan.tasks

lemma availableCarryOver_eq (yesterdayPlan : Option DailyPlan) (ep : DailyPlan) :
    availableCarryOverForExistingPlan yesterdayPlan ep
      = ((getCarryOverCandidatesFromPlan yesterdayPlan).filter
            (fun task => decide (task.id ∉ carriedIds ep.tasks))).take
          (MAX_TASKS_PER_DAY - ep.tasks.length) := rfl

lemma acceptCarryOver_tasks (nextId : Nat) (yesterdayPlan : Option DailyPlan)
    (ep : DailyPlan) :
    (acceptCarryOverIntoExistingPlan nextId yesterdayPlan ep).tasks
      = appendTaskInputsToPlan nextId ep.tasks
          ((availableCarryOverForExistingPlan yesterdayPlan ep).map
            (fun task =>
              { text := task.text, areaId := task.areaId,
                carriedFromTaskId := some task.id })) := rfl

lemma carriedIds_append (l₁ l₂ : List Task) :
    carriedIds (l₁ ++ l₂) = carriedIds l₁ ++ carriedIds l₂ :=
  List.filterMap_append l₁ l₂ _

lemma carriedIds_mkAppendedTasks (l : List PlanTaskInput) :
    ∀ nextId startPos,
      carriedIds (mkAppendedTasks nextId startPos l)
        = l.filterMap PlanTaskInput.carriedFromTaskId := by
  induction l with
  | nil => intro n p; rfl
  | cons t rest ih =>
    intro n p
    simp only [mkAppendedTasks, carriedIds, List.filterMap_cons] at *
    rw [ih]

/-- Carry-over inputs with trim-nonempty texts all survive normalization. -/
lemma normalizeAppendInputs_carryInputs (l : List Task)
    (h : ∀ t ∈ l, trimChars t.text ≠ []) :
    normalizeAppendInputs
        (l.map (fun task =>
          ({ text := task.text, areaId := task.areaId,
             carriedFromTaskId := some task.id } : PlanTaskInput)))
      = l.map (fun task =>
          ({ text := (trimChars task.text).take MAX_TASK_TEXT_LENGTH,
             areaId := task.areaId,
             carriedFromTaskId := some task.id } : PlanTaskInput)) := by
  unfold normalizeAppendInputs
  rw [List.map_map]
  apply List.filter_eq_self.mpr
  intro a ha
  rw [List.mem_map] at ha
  obtain ⟨t, ht, rfl⟩ := ha
  have htext : trimChars t.text ≠ [] := h t ht
  have hpos : 0 < (trimChars t.text).length := List.length_pos.mpr htext
  have h200 : 0 < MAX_TASK_TEXT_LENGTH := by norm_num [MAX_TASK_TEXT_LENGTH]
  simp only [Function.comp]
  rw [decide_eq_true_eq]
  rw [List.length_take]
  omega

/-- Every candidate offered by the resolver comes from the source plan's
task list. -/
lemma carryOver_mem_planTasks (yesterdayPlan : Option DailyPlan) {t : Task}
    (ht : t ∈ getCarryOverCandidatesFromPlan yesterdayPlan) :
    t ∈ planTasksOf yesterdayPlan := by
  cases yesterdayPlan with
  | none => cases ht
  | some plan =>
    unfold getCarryOverCandidatesFromPlan getCarryOverTasksFromYesterday at ht
    have hperm := List.mergeSort_perm
      (plan.tasks.filter (fun task => decide (task.status = TaskStatus.inProgress)))
      (fun a b => decide (a.position ≤ b.position))
    have hmem := hperm.mem_iff.mp ht
    exact (List.filter_sublist plan.tasks).subset hmem

/-- After one accepted carry-over offer, the offer is exhausted: either the
plan is full, or every remaining candidate already carries its
`carriedFromTaskId` marker. -/
lemma availableCarryOver_after_accept (nextId : Nat)
    (yesterdayPlan : Option DailyPlan) (ep : DailyPlan)
    (htext : ∀ t ∈ planTasksOf yesterdayPlan, trimChars t.text ≠ []) :
    availableCarryOverForExistingPlan yesterdayPlan
        (acceptCarryOverIntoExistingPlan nextId yesterdayPlan ep) = [] := by
  have hcarrytext : ∀ t ∈ getCarryOverCandidatesFromPlan yesterdayPlan,
      trimChars t.text ≠ [] :=
    fun t ht => htext t (carryOver_mem_planTasks yesterdayPlan ht)
  by_cases hcap : MAX_TASKS_PER_DAY ≤ ep.tasks.length
  · -- the plan was already full: nothing was offered, nothing changed
    have hz : MAX_TASKS_PER_DAY - ep.tasks.length = 0 :=
      Nat.sub_eq_zero_of_le hcap
    have havail : availableCarryOverForExistingPlan yesterdayPlan ep = [] := by
      rw [availableCarryOver_eq, hz, List.take_zero]
    have htasks :
        (acceptCarryOverIntoExistingPlan nextId yesterdayPlan ep).tasks
          = ep.tasks := by
      rw [acceptCarryOver_tasks, havail]
      exact appendTasks_frame nextId ep.tasks [] (Or.inr (by intro t ht; cases ht))
    rw [availableCarryOver_eq, htasks, hz, List.take_zero]
  · have hclt : ep.tasks.length < MAX_TASKS_PER_DAY := Nat.lt_of_not_le hcap
    -- abbreviations for the first offer
    have havail :
        availableCarryOverForExistingPlan yesterdayPlan ep
          = ((getCarryOverCandidatesFromPlan yesterdayPlan).filter
                (fun task => decide (task.id ∉ carriedIds ep.tasks))).take
              (MAX_TASKS_PER_DAY - ep.tasks.length) := availableCarryOver_eq _ _
    have havailtext : ∀ t ∈ availableCarryOverForExistingPlan yesterdayPlan ep,
        trimChars t.text ≠ [] := by
      intro t ht
      rw [havail] at ht
      exact hcarrytext t
        ((List.filter_sublist _).subset ((List.take_sublist _ _).subset ht))
    have hnorm := normalizeAppendInputs_carryInputs
      (availableCarryOverForExistingPlan yesterdayPlan ep) havailtext
    have hnlen :
        (normalizeAppendInputs
            ((availableCarryOverForExistingPlan yesterdayPlan ep).map
              (fun task =>
                ({ text := task.text, areaId := task.areaId,
                   carriedFromTaskId := some task.id } : PlanTaskInput)))).length
          = (availableCarryOverForExistingPlan yesterdayPlan ep).length := by
      rw [hnorm, List.length_map]
    have havaillen :
        (availableCarryOverForExistingPlan yesterdayPlan ep).length
          ≤ MAX_TASKS_PER_DAY - ep.tasks.length := by
      rw [havail]
      exact List.length_take_le _ _
    have htake :
        (normalizeAppendInputs
            ((availableCarryOverForExistingPlan yesterdayPlan ep).map
              (fun task =>
                ({ text := task.text, areaId := task.areaId,
                   carriedFromTaskId := some task.id } : PlanTaskInput)))).take
            (MAX_TASKS_PER_DAY - ep.tasks.length)
          = normalizeAppendInputs
              ((availableCarryOverForExistingPlan yesterdayPlan ep).map
                (fun task =>
                  ({ text := task.text, areaId := task.areaId,
                     carriedFromTaskId := some task.id } : PlanTaskInput))) :=
      List.take_of_length_le (by rw [hnlen]; exact havaillen)
    have htasks :
        (acceptCarryOverIntoExistingPlan nextId yesterdayPlan ep).tasks
          = ep.tasks ++
              mkAppendedTasks nextId ep.tasks.length
                (normalizeAppendInputs
                  ((availableCarryOverForExistingPlan yesterdayPlan ep).map
                    (fun task =>
                      ({ text := task.text, areaId := task.areaId,
                         carriedFromTaskId := some task.id } : PlanTaskInput)))) := by
      rw [acceptCarryOver_tasks, appendTaskInputsToPlan_eq, htake]
    have hlen :
        (acceptCarryOverIntoExistingPlan nextId yesterdayPlan ep).tasks.length
          = ep.tasks.length
            + (availableCarryOverForExistingPlan yesterdayPlan ep).length := by
      rw [htasks, List.length_append, mkAppendedTasks_length, hnlen]
    by_cases hfull :
        MAX_TASKS_PER_DAY - ep.tasks.length
          ≤ ((getCarryOverCandidatesFromPlan yesterdayPlan).filter
              (fun task => decide (task.id ∉ carriedIds ep.tasks))).length
    · -- the offer filled the plan: no free slot remains
      have hlen₁ :
          (availableCarryOverForExistingPlan yesterdayPlan ep).length
            = MAX_TASKS_PER_DAY - ep.tasks.length := by
        rw [havail, List.length_take]
        omega
      have hfull₂ :
          MAX_TASKS_PER_DAY
            - (acceptCarryOverIntoExistingPlan nextId yesterdayPlan ep).tasks.length
            = 0 := by
        rw [hlen, hlen₁]
        omega
      rw [availableCarryOver_eq, hfull₂, List.take_zero]
    · -- every candidate that was still unmarked got migrated and marked
      have hF : availableCarryOverForExistingPlan yesterdayPlan ep
          = (getCarryOverCandidatesFromPlan yesterdayPlan).filter
              (fun task => decide (task.id ∉ carriedIds ep.tasks)) := by
        rw [havail]
        exact List.take_of_length_le (by omega)
      have hcarried :
          carriedIds (acceptCarryOverIntoExistingPlan nextId yesterdayPlan ep).tasks
            = carriedIds ep.tasks ++
                (availableCarryOverForExistingPlan yesterdayPlan ep).map Task.id := by
        rw [htasks, carriedIds_append, carriedIds_mkAppendedTasks, hnorm,
          List.filterMap_map]
        rw [show
          ((fun task : PlanTaskInput => task.carriedFromTaskId) ∘
              (fun task : Task =>
                ({ text := (trimChars task.text).take MAX_TASK_TEXT_LENGTH,
                   areaId := task.areaId,
                   carriedFromTaskId := some task.id } : PlanTaskInput)))
            = some ∘ Task.id from rfl]
        rw [List.filterMap_eq_map]
      have hnilfilter :
          (getCarryOverCandidatesFromPlan yesterdayPlan).filter
              (fun task => decide (task.id ∉ carriedIds
                (acceptCarryOverIntoExistingPlan nextId yesterdayPlan ep).tasks))
            = [] := by
        rw [List.filter_eq_nil_iff]
        intro t ht
        rw [decide_eq_true_eq, not_not, hcarried, List.mem_append]
        by_cases hin : t.id ∈ carriedIds ep.tasks
        · exact Or.inl hin
        · refine Or.inr ?_
          rw [List.mem_map]
          refine ⟨t, ?_, rfl⟩
          rw [hF, List.mem_filter]
          exact ⟨ht, by rw [decide_eq_true_eq]; exact hin⟩
      rw [availableCarryOver_eq, hnilfilter, List.take_nil]

/-- When the offer is empty, accepting it leaves the plan untouched. -/
lemma acceptCarryOver_of_avail_nil (nextId : Nat)
    (yesterdayPlan : Option DailyPlan) (ep : DailyPlan)
    (h : availableCarryOverForExistingPlan yesterdayPlan ep = []) :
    acceptCarryOverIntoExistingPlan nextId yesterdayPlan ep = ep := by
  have htasks :
      (acceptCarryOverIntoExistingPlan nextId yesterdayPlan ep).tasks
        = ep.tasks := by
    rw [acceptCarryOver_tasks, h]
    exact appendTasks_frame nextId ep.tasks [] (Or.inr (by intro t ht; cases ht))
  cases ep
  simp only [acceptCarryOverIntoExistingPlan] at htasks ⊢
  rw [htasks]

/-- Claim C3: the resolver returns exactly the source plan's `in_progress`
tasks ordered by position; the offer into an already-confirmed plan excludes
every candidate whose id already appears as a `carriedFromTaskId` in the
target; hence accepting the offer twice never migrates the same source task
twice — the second accept is a no-op (given the stored invariant that task
texts do not trim to empty). -/
theorem carryOver_resolver_spec (p : DailyPlan) (yesterdayPlan : Option DailyPlan)
    (ep : DailyPlan) (nextId₁ nextId₂ : Nat) :
    ((getCarryOverTasksFromYesterday (some p)).Perm
        (p.tasks.filter (fun task => decide (task.status = TaskStatus.inProgress))) ∧
      (getCarryOverTasksFromYesterday (some p)).Pairwise
        (fun a b => a.position ≤ b.position)) ∧
    (∀ t ∈ availableCarryOverForExistingPlan yesterdayPlan ep,
      ∀ u ∈ ep.tasks, u.carriedFromTaskId ≠ some t.id) ∧
    ((∀ t ∈ planTasksOf yesterdayPlan, trimChars t.text ≠ []) →
      acceptCarryOverIntoExistingPlan nextId₂ yesterdayPlan
          (acceptCarryOverIntoExistingPlan nextId₁ yesterdayPlan ep)
        = acceptCarryOverIntoExistingPlan nextId₁ yesterdayPlan ep) := by
  refine ⟨⟨?_, ?_⟩, ?_, ?_⟩
  · exact List.mergeSort_perm _ _
  · have hsorted := @List.sorted_mergeSort Task
      (fun a b : Task => decide (a.position ≤ b.position))
      (by
        intro a b c hab hbc
        rw [decide_eq_true_eq] at hab hbc ⊢
        omega)
      (by
        intro a b
        rcases Nat.le_total a.position b.position with h | h
        · simp [h]
        · simp [h])
      (p.tasks.filter (fun task => decide (task.status = TaskStatus.inProgress)))
    exact hsorted.imp (by intro a b hab; rwa [decide_eq_true_eq] at hab)
  · intro t ht u hu hcontra
    rw [availableCarryOver_eq] at ht
    have ht' := (List.take_sublist _ _).subset ht
    rw [List.mem_filter, decide_eq_true_eq] at ht'
    apply ht'.2
    unfold carriedIds
    rw [List.mem_filterMap]
    exact ⟨u, hu, hcontra⟩
  · intro htext
    exact acceptCarryOver_of_avail_nil nextId₂ yesterdayPlan _
      (availableCarryOver_after_accept nextId₁ yesterdayPlan ep htext)

/-- Witness for C3: yesterday holds one in-progress task; accepting the
carry-over offer into today's confirmed plan twice equals accepting it
once. -/
theorem carryOver_resolver_spec_witness :
    acceptCarryOverIntoExistingPlan 9
        (some { status := PlanStatus.reviewed, source := [], confirmedAt := none,
                reviewStartedAt := none, reviewCompletedAt := none,
                tasks := [⟨7, ['f', 'i', 'x'], 1, TaskStatus.inProgress, none, none⟩] })
        (acceptCarryOverIntoExistingPlan 8
          (some { status := PlanStatus.reviewed, source := [], confirmedAt := none,
                  reviewStartedAt := none, reviewCompletedAt := none,
                  tasks := [⟨7, ['f', 'i', 'x'], 1, TaskStatus.inProgress, none, none⟩] })
          { status := PlanStatus.confirmed, source := [], confirmedAt := none,
            reviewStartedAt := none, reviewCompletedAt := none,
            tasks := [⟨1, ['a'], 1, TaskStatus.pending, none, none⟩] })
      = acceptCarryOverIntoExistingPlan 8
          (some { status := PlanStatus.reviewed, source := [], confirmedAt := none,
                  reviewStartedAt := none, reviewCompletedAt := none,
                  tasks := [⟨7, ['f', 'i', 'x'], 1, TaskStatus.inProgress, none, none⟩] })
          { status := PlanStatus.confirmed, source := [], confirmedAt := none,
            reviewStartedAt := none, reviewCompletedAt := none,
            tasks := [⟨1, ['a'], 1, TaskStatus.pending, none, none⟩] } :=
  (carryOver_resolver_spec
      { status := PlanStatus.reviewed, source := [], confirmedAt := none,
        reviewStartedAt := none, reviewCompletedAt := none,
        tasks := [⟨7, ['f', 'i', 'x'], 1, TaskStatus.inProgress, none, none⟩] }
      (some { status := PlanStatus.reviewed, source := [], confirmedAt := none,
              reviewStartedAt := none, reviewCompletedAt := none,
              tasks := [⟨7, ['f', 'i', 'x'], 1, TaskStatus.inProgress, none, none⟩] })
      { status := PlanStatus.confirmed, source := [], confirmedAt := none,
        reviewStartedAt := none, reviewCompletedAt := none,
        tasks := [⟨1, ['a'], 1, TaskStatus.pending, none, none⟩] } 8 9).2.2
    (by decide)

/-! ### C5: at-most-once dispatch per (user, trigger, slot) -/

lemma mem_setLedgerEntry {led : Ledger} {k : DedupKey} {ts : Nat} :
    ∀ e ∈ setLedgerEntry led k ts, e = (k, ts) ∨ e ∈ led := by
  intro e he
  unfold setLedgerEntry at he
  by_cases h : led.any (fun x => decide (x.1 = k)) = true
  · rw [if_pos h] at he
    rw [List.mem_map] at he
    obtain ⟨x, hx, hxe⟩ := he
    by_cases hk : x.1 = k
    · rw [if_pos hk] at hxe
      exact Or.inl hxe.symm
    · rw [if_neg hk] at hxe
      exact Or.inr (hxe ▸ hx)
  · rw [if_neg h] at he
    rw [List.mem_append] at he
    rcases he with h1 | h1
    · exact Or.inr h1
    · rw [List.mem_singleton] at h1
      exact Or.inl h1

lemma mem_markSent {led : Ledger} {k : DedupKey} {now : Nat} :
    ∀ e ∈ markSent led k now, e = (k, now) ∨ e ∈ led := by
  intro e he
  unfold markSent at he
  exact mem_setLedgerEntry e (List.mem_filter.mp he).1

lemma self_mem_setLedgerEntry (led : Ledger) (k : DedupKey) (ts : Nat) :
    (k, ts) ∈ setLedgerEntry led k ts := by
  unfold setLedgerEntry
  by_cases h : led.any (fun x => decide (x.1 = k)) = true
  · rw [if_pos h]
    rw [List.any_eq_true] at h
    obtain ⟨x, hx, hdec⟩ := h
    rw [decide_eq_true_eq] at hdec
    rw [List.mem_map]
    exact ⟨x, hx, by rw [if_pos hdec]⟩
  · rw [if_neg h]
    rw [List.mem_append]
    exact Or.inr (List.mem_singleton.mpr rfl)

lemma ne_mem_setLedgerEntry {led : Ledger} {k : DedupKey} {ts : Nat} {e : DedupKey × Nat}
    (he : e ∈ led) (hne : e.1 ≠ k) : e ∈ setLedgerEntry led k ts := by
  unfold setLedgerEntry
  by_cases h : led.any (fun x => decide (x.1 = k)) = true
  · rw [if_pos h]
    rw [List.mem_map]
    exact ⟨e, he, by rw [if_neg hne]⟩
  · rw [if_neg h]
    rw [List.mem_append]
    exact Or.inl he

lemma sentFresh_markSent_self (led : Ledger) (k : DedupKey) (now : Nat) :
    SentFresh now (markSent led k now) k := by
  refine ⟨(k, now), ?_, rfl, by omega⟩
  unfold markSent
  rw [List.mem_filter]
  refine ⟨self_mem_setLedgerEntry led k now, ?_⟩
  rw [decide_eq_true_eq]
  omega

lemma sentFresh_markSent {now : Nat} {led : Ledger} {k' : DedupKey}
    (h : SentFresh now led k') (k : DedupKey) :
    SentFresh now (markSent led k now) k' := by
  by_cases hkk : k' = k
  · subst hkk
    exact sentFresh_markSent_self led k' now
  · obtain ⟨e, he, hek, hfr⟩ := h
    refine ⟨e, ?_, hek, hfr⟩
    unfold markSent
    rw [List.mem_filter]
    refine ⟨ne_mem_setLedgerEntry he (by rw [hek]; exact hkk), ?_⟩
    rw [decide_eq_true_eq]
    omega

lemma SentFresh.toWasSent {n : Nat} {led : Ledger} {k : DedupKey}
    (h : SentFresh n led k) : wasSent led k = true := by
  obtain ⟨e, he, hek, _⟩ := h
  unfold wasSent
  rw [List.any_eq_true]
  exact ⟨e, he, decide_eq_true hek⟩

lemma countKey_append (m₁ m₂ : List SentMsg) (k : DedupKey) :
    countKey (m₁ ++ m₂) k = countKey m₁ k + countKey m₂ k :=
  List.countP_append _ m₁ m₂

lemma countKey_singleton (msg : SentMsg) (k : DedupKey) :
    countKey [msg] k = if msg.key = k then 1 else 0 := by
  simp [countKey, List.countP_cons]

/-- The transition contract every dedup-guarded step of the reminder sweep
obeys at tick instant `now`: ledger entries are either freshly written or
inherited; a freshly-recorded slot stays recorded and accrues no further
message; an unrecorded slot accrues at most one message, and only together
with its ledger record. -/
structure TickStep (now : Nat) (a b : Ledger × List SentMsg) : Prop where
  entries : ∀ e ∈ b.1, e.2 = now ∨ e ∈ a.1
  markedStable : ∀ k, SentFresh now a.1 k →
    SentFresh now b.1 k ∧ countKey b.2 k = countKey a.2 k
  unmarkedOnce : ∀ k, ¬ SentFresh now a.1 k →
    countKey b.2 k ≤ countKey a.2 k + 1 ∧
    (countKey a.2 k < countKey b.2 k → SentFresh now b.1 k)

lemma TickStep.rfl (now : Nat) (a : Ledger × List SentMsg) : TickStep now a a :=
  ⟨fun _ he => Or.inr he, fun _ h => ⟨h, by omega⟩,
    fun _ _ => ⟨by omega, fun hlt => absurd hlt (Nat.lt_irrefl _)⟩⟩

lemma TickStep.trans {now : Nat} {a b c : Ledger × List SentMsg}
    (hab : TickStep now a b) (hbc : TickStep now b c) : TickStep now a c := by
  refine ⟨?_, ?_, ?_⟩
  · intro e he
    rcases hbc.entries e he with h | h
    · exact Or.inl h
    · exact hab.entries e h
  · intro k hk
    obtain ⟨h1, h2⟩ := hab.markedStable k hk
    obtain ⟨h3, h4⟩ := hbc.markedStable k h1
    exact ⟨h3, by omega⟩
  · intro k hk
    obtain ⟨h1, h2⟩ := hab.unmarkedOnce k hk
    by_cases hb : SentFresh now b.1 k
    · obtain ⟨h3, h4⟩ := hbc.markedStable k hb
      exact ⟨by omega, fun _ => h3⟩
    · obtain ⟨h3, h4⟩ := hbc.unmarkedOnce k hb
      have hble : countKey b.2 k ≤ countKey a.2 k := by
        by_contra hgt
        exact hb (h2 (by omega))
      exact ⟨by omega, fun hlt => h4 (by omega)⟩

lemma tickStep_mark (now : Nat) (acc : Ledger × List SentMsg) (k : DedupKey) :
    TickStep now acc (markSent acc.1 k now, acc.2) := by
  refine ⟨?_, ?_, ?_⟩
  · intro e he
    rcases mem_markSent e he with h | h
    · exact Or.inl (by rw [h])
    · exact Or.inr h
  · intro k' hk'
    exact ⟨sentFresh_markSent hk' k, rfl⟩
  · intro k' _
    exact ⟨Nat.le_succ _, fun hlt => absurd hlt (Nat.lt_irrefl _)⟩

lemma tickStep_send (now : Nat) (acc : Ledger × List SentMsg) (k : DedupKey)
    (payload : ReminderPayload) (hguard : wasSent acc.1 k = false) :
    TickStep now acc (markSent acc.1 k now, acc.2 ++ [⟨k, payload⟩]) := by
  refine ⟨?_, ?_, ?_⟩
  · intro e he
    rcases mem_markSent e he with h | h
    · exact Or.inl (by rw [h])
    · exact Or.inr h
  · intro k' hk'
    refine ⟨sentFresh_markSent hk' k, ?_⟩
    have hne : (⟨k, payload⟩ : SentMsg).key ≠ k' := by
      intro h
      have hkk : k' = k := h.symm
      subst hkk
      rw [hk'.toWasSent] at hguard
      cases hguard
    rw [countKey_append, countKey_singleton, if_neg hne]
    omega
  · intro k' _
    by_cases hkk : (⟨k, payload⟩ : SentMsg).key = k'
    · rw [countKey_append, countKey_singleton, if_pos hkk]
      refine ⟨by omega, fun _ => ?_⟩
      have hkk' : k' = k := hkk.symm
      subst hkk'
      exact sentFresh_markSent_self acc.1 k' now
    · rw [countKey_append, countKey_singleton, if_neg hkk]
      exact ⟨by omega, fun hlt => absurd hlt (by omega)⟩

lemma processReminderForTime_tickStep (now : Nat) (u : UserEnv)
    (acc : Ledger × List SentMsg) (reminderTime : Nat) :
    TickStep now acc (processReminderForTime now u acc reminderTime) := by
  unfold processReminderForTime
  split
  · exact TickStep.rfl now acc
  · split
    · exact TickStep.rfl now acc
    · next hguard =>
      have hguard' : wasSent acc.1 (reminderKey u reminderTime) = false :=
        Bool.eq_false_iff.mpr hguard
      split
      · exact tickStep_mark now acc _
      · split
        · exact tickStep_mark now acc _
        · exact tickStep_send now acc _ _ hguard'

lemma tickStep_foldl {β : Type} (now : Nat)
    (f : Ledger × List SentMsg → β → Ledger × List SentMsg)
    (hf : ∀ acc x, TickStep now acc (f acc x)) :
    ∀ (l : List β) (acc : Ledger × List SentMsg),
      TickStep now acc (l.foldl f acc) := by
  intro l
  induction l with
  | nil => intro acc; exact TickStep.rfl now acc
  | cons x rest ih =>
    intro acc
    rw [List.foldl_cons]
    exact TickStep.trans (hf acc x) (ih (f acc x))

/-- The whole reminder sweep of one tick satisfies the transition contract:
it is the fold of contract-preserving per-user, per-time steps. -/
lemma processDailyTaskReminders_tickStep (now : Nat) (users : List UserEnv)
    (led : Ledger) :
    TickStep now (led, []) (processDailyTaskReminders now users led) := by
  unfold processDailyTaskReminders
  refine tickStep_foldl now _ ?_ users (led, [])
  intro acc u
  exact tickStep_foldl now _ (fun acc' t =>
    processReminderForTime_tickStep now u acc' t) u.reminderTimes acc

/-- Claim C5: across two consecutive reminder sweeps — the second within the
48-hour eviction horizon of the first, with every pre-existing ledger entry
still within that horizon — at most one message is dispatched per dedup key
(user, trigger type, local-day/configured-time slot); and once the ledger
records a slot, neither sweep dispatches for it again. -/
theorem scheduler_dedup_fires_once (users₁ users₂ : List UserEnv) (led₀ : Ledger)
    (now₁ now₂ : Nat) (r₁ r₂ : Ledger × List SentMsg)
    (h₁₂ : now₁ ≤ now₂) (hgap : now₂ ≤ now₁ + DEDUP_TTL_MS)
    (hfresh : FreshLedger now₂ led₀)
    (hr₁ : r₁ = processDailyTaskReminders now₁ users₁ led₀)
    (hr₂ : r₂ = processDailyTaskReminders now₂ users₂ r₁.1)
    (k : DedupKey) :
    countKey r₁.2 k + countKey r₂.2 k ≤ 1 ∧
    (wasSent led₀ k = true → countKey r₁.2 k = 0 ∧ countKey r₂.2 k = 0) := by
  have T₁ : TickStep now₁ (led₀, []) r₁ := by
    rw [hr₁]
    exact processDailyTaskReminders_tickStep now₁ users₁ led₀
  have T₂ : TickStep now₂ (r₁.1, []) r₂ := by
    rw [hr₂]
    exact processDailyTaskReminders_tickStep now₂ users₂ r₁.1
  have hupg : ∀ k', SentFresh now₁ r₁.1 k' → SentFresh now₂ r₁.1 k' := by
    intro k' hk'
    obtain ⟨e, he, hek, _⟩ := hk'
    rcases T₁.entries e he with hnow | hled
    · exact ⟨e, he, hek, by omega⟩
    · exact ⟨e, he, hek, hfresh e hled⟩
  have hdown : ∀ k', wasSent led₀ k' = true → SentFresh now₁ led₀ k' := by
    intro k' hws
    unfold wasSent at hws
    rw [List.any_eq_true] at hws
    obtain ⟨e, he, hdec⟩ := hws
    rw [decide_eq_true_eq] at hdec
    have := hfresh e he
    exact ⟨e, he, hdec, by omega⟩
  constructor
  · by_cases h0 : SentFresh now₁ led₀ k
    · obtain ⟨hsf1, hc1⟩ := T₁.markedStable k h0
      obtain ⟨_, hc2⟩ := T₂.markedStable k (hupg k hsf1)
      have hc1' : countKey r₁.2 k = 0 := by rw [hc1]; rfl
      have hc2' : countKey r₂.2 k = 0 := by rw [hc2]; rfl
      omega
    · obtain ⟨hc1, himp⟩ := T₁.unmarkedOnce k h0
      have hz₀ : countKey ((led₀, ([] : List SentMsg))).2 k = 0 := rfl
      by_cases hone : 0 < countKey r₁.2 k
      · have hsf1 : SentFresh now₁ r₁.1 k := himp (by omega)
        obtain ⟨_, hc2⟩ := T₂.markedStable k (hupg k hsf1)
        have hc2' : countKey r₂.2 k = 0 := by rw [hc2]; rfl
        omega
      · by_cases h1 : SentFresh now₂ r₁.1 k
        · obtain ⟨_, hc2⟩ := T₂.markedStable k h1
          have hc2' : countKey r₂.2 k = 0 := by rw [hc2]; rfl
          omega
        · obtain ⟨hc2, _⟩ := T₂.unmarkedOnce k h1
          have hz₁ : countKey ((r₁.1, ([] : List SentMsg))).2 k = 0 := rfl
          omega
  · intro hws
    obtain ⟨hsf1, hc1⟩ := T₁.markedStable k (hdown k hws)
    obtain ⟨_, hc2⟩ := T₂.markedStable k (hupg k hsf1)
    have hc1' : countKey r₁.2 k = 0 := by rw [hc1]; rfl
    have hc2' : countKey r₂.2 k = 0 := by rw [hc2]; rfl
    exact ⟨hc1', hc2'⟩

/-- Witness for C5: a user with one configured reminder time and a two-task
pending plan, swept twice within the same 6-minute window starting from an
empty ledger, receives at most one message for the slot. -/
theorem scheduler_dedup_fires_once_witness :
    countKey (processDailyTaskReminders 1000
        [⟨1, [600],
          some { status := PlanStatus.confirmed, source := [], confirmedAt := none,
                 reviewStartedAt := none, reviewCompletedAt := none,
                 tasks := [⟨1, "Write report".toList, 1, TaskStatus.pending, none, none⟩,
                           ⟨2, "Call dentist".toList, 2, TaskStatus.pending, none, none⟩] },
          0, 600⟩] []).2 ⟨1, NotificationType.dailyReminder, ⟨0, 600⟩⟩ +
      countKey (processDailyTaskReminders 1000
        [⟨1, [600],
          some { status := PlanStatus.confirmed, source := [], confirmedAt := none,
                 reviewStartedAt := none, reviewCompletedAt := none,
                 tasks := [⟨1, "Write report".toList, 1, TaskStatus.pending, none, none⟩,
                           ⟨2, "Call dentist".toList, 2, TaskStatus.pending, none, none⟩] },
          0, 600⟩]
        (processDailyTaskReminders 1000
          [⟨1, [600],
            some { status := PlanStatus.confirmed, source := [], confirmedAt := none,
                   reviewStartedAt := none, reviewCompletedAt := none,
                   tasks := [⟨1, "Write report".toList, 1, TaskStatus.pending, none, none⟩,
                             ⟨2, "Call dentist".toList, 2, TaskStatus.pending, none, none⟩] },
            0, 600⟩] []).1).2 ⟨1, NotificationType.dailyReminder, ⟨0, 600⟩⟩ ≤ 1 :=
  (scheduler_dedup_fires_once
    [⟨1, [600],
      some { status := PlanStatus.confirmed, source := [], confirmedAt := none,
             reviewStartedAt := none, reviewCompletedAt := none,
             tasks := [⟨1, "Write report".toList, 1, TaskStatus.pending, none, none⟩,
                       ⟨2, "Call dentist".toList, 2, TaskStatus.pending, none, none⟩] },
      0, 600⟩]
    [⟨1, [600],
      some { status := PlanStatus.confirmed, source := [], confirmedAt := none,
             reviewStartedAt := none, reviewCompletedAt := none,
             tasks := [⟨1, "Write report".toList, 1, TaskStatus.pending, none, none⟩,
                       ⟨2, "Call dentist".toList, 2, TaskStatus.pending, none, none⟩] },
      0, 600⟩]
    [] 1000 1000 _ _ (by omega) (by norm_num [DEDUP_TTL_MS])
    (by intro e he; cases he) rfl rfl
    ⟨1, NotificationType.dailyReminder, ⟨0, 600⟩⟩).1

end BetterGoals
